import Mathlib

/-!
Verification of the OmniBOR/GitBOM BOM-generation subsystem of
gcc-11.3.0/libcpp/mkdeps.c (gitoid hashing, BOM document assembly,
content-addressed object store, provenance metadata, dependency ledger).

Byte sequences are modelled as `List Nat` with each element < 256 where it
matters; 32-bit machine arithmetic is modelled on `Nat` with explicit
`% 4294967296`.  Strings of the C++ code (`std::string`) are modelled as
Lean `String`; all characters involved are ASCII, so `String` append and
lexicographic comparison coincide with the byte-wise operations of the C
code.
-/

/-- Byte sequences: each element is a byte value (< 256). -/
abbrev Bytes := List Nat

/-- Bytes of an ASCII string (`Char.toNat` of each character). -/
def strBytes (s : String) : Bytes := s.data.map Char.toNat

/-- Truncation to 32 bits. -/
def m32 (n : Nat) : Nat := n % 4294967296

/-- Left rotation (32-bit) of a word `w < 2^32`. -/
def rotl (n w : Nat) : Nat := ((w <<< n) ||| (w >>> (32 - n))) % 4294967296

/-- Right rotation (32-bit) of a word `w < 2^32`. -/
def rotr (n w : Nat) : Nat := ((w >>> n) ||| (w <<< (32 - n))) % 4294967296

/-- Big-endian bytes of the 64-bit message length (in bits). -/
def lenBytesBE (n : Nat) : Bytes :=
  [ (n >>> 56) % 256, (n >>> 48) % 256, (n >>> 40) % 256, (n >>> 32) % 256,
    (n >>> 24) % 256, (n >>> 16) % 256, (n >>> 8) % 256, n % 256 ]

/-- Merkle–Damgård padding shared by SHA-1 and SHA-256: append `0x80`, zero
bytes up to 56 mod 64, then the 64-bit big-endian bit length. -/
def shaPad (msg : Bytes) : Bytes :=
  msg ++ [128] ++ List.replicate ((119 - msg.length % 64) % 64) 0
      ++ lenBytesBE (msg.length * 8)

/-- Group bytes into 32-bit big-endian words. -/
def toWordsBE : Bytes → List Nat
  | a :: b :: c :: d :: rest => (((a * 256 + b) * 256 + c) * 256 + d) :: toWordsBE rest
  | _ => []

/-- Big-endian bytes of one 32-bit word. -/
def wordBytesBE (w : Nat) : Bytes :=
  [(w >>> 24) % 256, (w >>> 16) % 256, (w >>> 8) % 256, w % 256]

/-- SHA-1 hash state (five 32-bit words). -/
structure Sha1State where
  a0 : Nat
  b0 : Nat
  c0 : Nat
  d0 : Nat
  e0 : Nat

/-- SHA-1 initial state. -/
def sha1H0 : Sha1State := ⟨1732584193, 4023233417, 2562383102, 271733878, 3285377520⟩

/-- SHA-1 message-schedule extension, keeping the words most-recent-first. -/
def sha1ExtendRev (w : List Nat) : Nat → List Nat
  | 0 => w
  | n + 1 =>
      sha1ExtendRev
        (rotl 1 (((w.getD 2 0) ^^^ (w.getD 7 0)) ^^^ ((w.getD 13 0) ^^^ (w.getD 15 0))) :: w) n

/-- SHA-1 round function, selected by the round index. -/
def sha1F (t b c d : Nat) : Nat :=
  if t < 20 then (b &&& c) ||| ((b ^^^ 4294967295) &&& d)
  else if t < 40 then (b ^^^ c) ^^^ d
  else if t < 60 then ((b &&& c) ||| (b &&& d)) ||| (c &&& d)
  else (b ^^^ c) ^^^ d

/-- SHA-1 round constant, selected by the round index. -/
def sha1K (t : Nat) : Nat :=
  if t < 20 then 1518500249
  else if t < 40 then 1859775393
  else if t < 60 then 2400959708
  else 3395469782

/-- SHA-1 compression of one 64-byte chunk. -/
def sha1Compress (st : Sha1State) (chunk : Bytes) : Sha1State :=
  let ws := (sha1ExtendRev (toWordsBE chunk).reverse 64).reverse
  let fin := ws.foldl
    (fun (acc : Nat × Nat × Nat × Nat × Nat × Nat) w =>
      let (t, a, b, c, d, e) := acc
      (t + 1, m32 (rotl 5 a + sha1F t b c d + e + sha1K t + w), a, rotl 30 b, c, d))
    (0, st.a0, st.b0, st.c0, st.d0, st.e0)
  ⟨m32 (st.a0 + fin.2.1), m32 (st.b0 + fin.2.2.1), m32 (st.c0 + fin.2.2.2.1),
   m32 (st.d0 + fin.2.2.2.2.1), m32 (st.e0 + fin.2.2.2.2.2)⟩

/-- Run the SHA-1 compression over all 64-byte chunks.  The first argument
is recursion fuel (each step consumes 64 bytes, so the message length is
always enough); structural recursion keeps the definition kernel-reducible. -/
def sha1ChunksFuel : Nat → Sha1State → Bytes → Sha1State
  | 0, st, _ => st
  | n + 1, st, msg =>
      if msg.isEmpty then st
      else sha1ChunksFuel n (sha1Compress st (msg.take 64)) (msg.drop 64)

/-- Run the SHA-1 compression over all 64-byte chunks. -/
def sha1Chunks (st : Sha1State) (msg : Bytes) : Sha1State :=
  sha1ChunksFuel msg.length st msg

/-- Modelled from the spec: the SHA-1 digest (20 bytes) of a byte sequence.
The implementation used by mkdeps.c lives in include/sha1.h, which is not
part of this repository snapshot; this is the standard FIPS 180 SHA-1. -/
def sha1Bytes (msg : Bytes) : Bytes :=
  let st := sha1Chunks sha1H0 (shaPad msg)
  wordBytesBE st.a0 ++ wordBytesBE st.b0 ++ wordBytesBE st.c0
    ++ wordBytesBE st.d0 ++ wordBytesBE st.e0

/-- SHA-256 hash state (eight 32-bit words). -/
structure Sha256State where
  a0 : Nat
  b0 : Nat
  c0 : Nat
  d0 : Nat
  e0 : Nat
  f0 : Nat
  g0 : Nat
  h0 : Nat

/-- SHA-256 initial state. -/
def sha256H0 : Sha256State :=
  ⟨1779033703, 3144134277, 1013904242, 2773480762,
   1359893119, 2600822924, 528734635, 1541459225⟩

/-- SHA-256 round constants. -/
def sha256K : List Nat :=
  [ 1116352408, 1899447441, 3049323471, 3921009573,
    961987163, 1508970993, 2453635748, 2870763221,
    3624381080, 310598401, 607225278, 1426881987,
    1925078388, 2162078206, 2614888103, 3248222580,
    3835390401, 4022224774, 264347078, 604807628,
    770255983, 1249150122, 1555081692, 1996064986,
    2554220882, 2821834349, 2952996808, 3210313671,
    3336571891, 3584528711, 113926993, 338241895,
    666307205, 773529912, 1294757372, 1396182291,
    1695183700, 1986661051, 2177026350, 2456956037,
    2730485921, 2820302411, 3259730800, 3345764771,
    3516065817, 3600352804, 4094571909, 275423344,
    430227734, 506948616, 659060556, 883997877,
    958139571, 1322822218, 1537002063, 1747873779,
    1955562222, 2024104815, 2227730452, 2361852424,
    2428436474, 2756734187, 3204031479, 3329325298 ]

/-- SHA-256 message-schedule extension, keeping the words most-recent-first. -/
def sha256ExtendRev (w : List Nat) : Nat → List Nat
  | 0 => w
  | n + 1 =>
      let s0 := ((rotr 7 (w.getD 14 0)) ^^^ (rotr 18 (w.getD 14 0))) ^^^ ((w.getD 14 0) >>> 3)
      let s1 := ((rotr 17 (w.getD 1 0)) ^^^ (rotr 19 (w.getD 1 0))) ^^^ ((w.getD 1 0) >>> 10)
      sha256ExtendRev (m32 ((w.getD 15 0) + s0 + (w.getD 6 0) + s1) :: w) n

/-- SHA-256 compression of one 64-byte chunk. -/
def sha256Compress (st : Sha256State) (chunk : Bytes) : Sha256State :=
  let ws := (sha256ExtendRev (toWordsBE chunk).reverse 48).reverse
  let fin := (ws.zip sha256K).foldl
    (fun (acc : Nat × Nat × Nat × Nat × Nat × Nat × Nat × Nat) wk =>
      let (a, b, c, d, e, f, g, h) := acc
      let s1 := ((rotr 6 e) ^^^ (rotr 11 e)) ^^^ (rotr 25 e)
      let ch := (e &&& f) ^^^ ((e ^^^ 4294967295) &&& g)
      let t1 := m32 (h + s1 + ch + wk.2 + wk.1)
      let s0 := ((rotr 2 a) ^^^ (rotr 13 a)) ^^^ (rotr 22 a)
      let mj := ((a &&& b) ^^^ (a &&& c)) ^^^ (b &&& c)
      let t2 := m32 (s0 + mj)
      (m32 (t1 + t2), a, b, c, m32 (d + t1), e, f, g))
    (st.a0, st.b0, st.c0, st.d0, st.e0, st.f0, st.g0, st.h0)
  ⟨m32 (st.a0 + fin.1), m32 (st.b0 + fin.2.1), m32 (st.c0 + fin.2.2.1),
   m32 (st.d0 + fin.2.2.2.1), m32 (st.e0 + fin.2.2.2.2.1), m32 (st.f0 + fin.2.2.2.2.2.1),
   m32 (st.g0 + fin.2.2.2.2.2.2.1), m32 (st.h0 + fin.2.2.2.2.2.2.2)⟩

/-- Run the SHA-256 compression over all 64-byte chunks (fuel-structural,
as for SHA-1). -/
def sha256ChunksFuel : Nat → Sha256State → Bytes → Sha256State
  | 0, st, _ => st
  | n + 1, st, msg =>
      if msg.isEmpty then st
      else sha256ChunksFuel n (sha256Compress st (msg.take 64)) (msg.drop 64)

/-- Run the SHA-256 compression over all 64-byte chunks. -/
def sha256Chunks (st : Sha256State) (msg : Bytes) : Sha256State :=
  sha256ChunksFuel msg.length st msg

/-- Modelled from the spec: the SHA-256 digest (32 bytes) of a byte sequence.
The implementation used by mkdeps.c lives in libcpp sha256.h/sha256.c, not in
this repository snapshot; this is the standard FIPS 180 SHA-256. -/
def sha256Bytes (msg : Bytes) : Bytes :=
  let st := sha256Chunks sha256H0 (shaPad msg)
  wordBytesBE st.a0 ++ wordBytesBE st.b0 ++ wordBytesBE st.c0 ++ wordBytesBE st.d0
    ++ wordBytesBE st.e0 ++ wordBytesBE st.f0 ++ wordBytesBE st.g0 ++ wordBytesBE st.h0

/-- The hex lookup table of mkdeps.c: `static const char *const lut = "0123456789abcdef"`. -/
def lut : List Char := "0123456789abcdef".data

/-- Hex characters of one byte, as in the loops of make_write_sha1_omnibor and
create_omnibor_document_file: `lut[b >> 4]` then `lut[b & 15]`. -/
def byteHexChars (b : Nat) : List Char :=
  [lut.getD (b >>> 4) '0', lut.getD (b &&& 15) '0']

/-- Hex characters of a byte sequence (most significant digit first). -/
def bytesHexChars : Bytes → List Char
  | [] => []
  | b :: bs => byteHexChars b ++ bytesHexChars bs

/-- Lowercase hex string of a byte sequence. -/
def bytesToHex (bs : Bytes) : String := ⟨bytesHexChars bs⟩

/-- The build-wide hash algorithm choice: SHA-1 or SHA-256. -/
inductive HashAlg where
  | sha1 : HashAlg
  | sha256 : HashAlg
deriving DecidableEq

/-- Digest of a byte sequence under the selected algorithm. -/
def hashBytes : HashAlg → Bytes → Bytes
  | HashAlg.sha1, msg => sha1Bytes msg
  | HashAlg.sha256, msg => sha256Bytes msg

/-- The constants GITOID_LENGTH_SHA1 (20) and GITOID_LENGTH_SHA256 (32). -/
def gitoidLength : HashAlg → Nat
  | HashAlg.sha1 => 20
  | HashAlg.sha256 => 32

/-- Expected hex-string length of a gitoid: 40 for SHA-1, 64 for SHA-256. -/
def hexLength : HashAlg → Nat
  | HashAlg.sha1 => 40
  | HashAlg.sha256 => 64

/-- The `init_data` prefix of calculate_shaN_omnibor_with_contents:
`"blob " + std::to_string (file_size) + '\0'`. -/
def omniborInitData (fileSize : Nat) : Bytes :=
  strBytes ("blob " ++ toString fileSize) ++ [0]

/-- calculate_sha1_omnibor_with_contents / calculate_sha256_omnibor_with_contents:
hash `init_data` followed by the content bytes, returning the raw digest
(`resblock`).  calculate_shaN_omnibor (the FILE* variants) hash exactly the
same stream for a file whose bytes are `contents`. -/
def calculateOmniborWithContents (alg : HashAlg) (contents : Bytes) : Bytes :=
  hashBytes alg (omniborInitData contents.length ++ contents)

/-- The gitoid of a byte sequence: raw digest rendered through `lut`, as in
the hex loops of make_write_shaN_omnibor and create_omnibor_document_file. -/
def gitoidOfContents (alg : HashAlg) (contents : Bytes) : String :=
  bytesToHex (calculateOmniborWithContents alg contents)

/-- Gitoid of an ASCII string (used for the document buffer itself). -/
def gitoidOfString (alg : HashAlg) (s : String) : String :=
  gitoidOfContents alg (strBytes s)

/-- The omnibor_dep class: a dependency file name paired with its gitoid. -/
structure omnibor_dep where
  name : String
  gitoid : String
deriving DecidableEq

/-- Three-way lexicographic comparison of character lists by code point —
the comparison `std::string::operator<` performs byte-wise on the ASCII
strings involved here. -/
def charCmp : List Char → List Char → Ordering
  | [], [] => Ordering.eq
  | [], _ :: _ => Ordering.lt
  | _ :: _, [] => Ordering.gt
  | a :: as, b :: bs =>
      if a.toNat < b.toNat then Ordering.lt
      else if b.toNat < a.toNat then Ordering.gt
      else charCmp as bs

/-- Comparison `a < b` on std::string (byte-wise lexicographic). -/
def strLtB (a b : String) : Bool := charCmp a.data b.data == Ordering.lt

/-- omnibor_cmp: `first->gitoid < second->gitoid` (lexicographic on the hex
string). -/
def omnibor_cmp (first second : omnibor_dep) : Bool :=
  strLtB first.gitoid second.gitoid

/-- Non-strict gitoid order on dependency records: the negation of
omnibor_cmp with swapped arguments — what a std::sort run with omnibor_cmp
establishes between adjacent elements. -/
def omniborLe (first second : omnibor_dep) : Prop :=
  omnibor_cmp second first = false

instance : DecidableRel omniborLe := fun a b =>
  inferInstanceAs (Decidable (omnibor_cmp b a = false))

/-- Ascending lexicographic order on gitoid strings, used to state the
sortedness of the document lines. -/
def gitoidLe (g1 g2 : String) : Prop := strLtB g2 g1 = false

/-- Model of `std::sort (vect.begin (), vect.end (), omnibor_cmp)`: a sort of the
record vector by gitoid (std::sort is unstable, so any reordering sorted by
the comparator is a faithful model; the document text depends only on the
sorted gitoid sequence). -/
def sortOmniborDeps (records : List omnibor_dep) : List omnibor_dep :=
  List.insertionSort omniborLe records

/-- The header line placed in `new_file_contents` before the blob lines:
`"gitoid:blob:sha1\n"` or `"gitoid:blob:sha256\n"`. -/
def omniborHeader : HashAlg → String
  | HashAlg.sha1 => "gitoid:blob:sha1\n"
  | HashAlg.sha256 => "gitoid:blob:sha256\n"

/-- One document line per record: `"blob " + gitoid + "\n"`
(create_omnibor_document_file, loop over vect_file_contents). -/
def blobLines : List omnibor_dep → String
  | [] => ""
  | d :: ds => "blob " ++ d.gitoid ++ "\n" ++ blobLines ds

/-- An environment mapping a dependency path to the bytes of its file, or
`none` when `fopen (path, "rb")` fails. -/
abbrev FileEnv := String → Option Bytes

/-- The record-collection loop of make_write_shaN_omnibor: for each
dependency path, open the file (skip the path when that fails), hash its
contents, and pair the path with the hex gitoid. -/
def omniborRecords (alg : HashAlg) (env : FileEnv) (deps : List String) :
    List omnibor_dep :=
  deps.filterMap fun p => (env p).map fun c => ⟨p, gitoidOfContents alg c⟩

/-- The records after the `std::sort` call. -/
def sortedOmniborRecords (alg : HashAlg) (env : FileEnv) (deps : List String) :
    List omnibor_dep :=
  sortOmniborDeps (omniborRecords alg env deps)

/-- The complete BOM document text assembled by make_write_shaN_omnibor and
create_omnibor_document_file: header plus one sorted blob line per record. -/
def omniborDocumentText (alg : HashAlg) (env : FileEnv) (deps : List String) :
    String :=
  omniborHeader alg ++ blobLines (sortedOmniborRecords alg env deps)

/-- The document's own gitoid, computed by create_omnibor_document_file over
the document text. -/
def omniborDocumentGitoid (alg : HashAlg) (env : FileEnv) (deps : List String) :
    String :=
  gitoidOfString alg (omniborDocumentText alg env deps)

/-- The leading `./` removal at the end of apply_vpath: while the path starts
with `./`, drop those two characters and any further separators directly
after them (IS_DIR_SEPARATOR is `/` on this host). -/
def stripDotSlashFuel : Nat → List Char → List Char
  | 0, l => l
  | n + 1, l =>
      match l with
      | '.' :: '/' :: rest => stripDotSlashFuel n (rest.dropWhile (· == '/'))
      | l => l

/-- The leading `./` removal, with the list length as ample fuel (every
iteration removes at least two characters). -/
def stripDotSlash (l : List Char) : List Char :=
  stripDotSlashFuel l.length l

/-- The match test of one vpath rule inside apply_vpath: the rule is a
prefix of the path (filename_ncmp over the rule's length), the next
character is a directory separator, and the prefix is not immediately
followed by `../` (the not-this-one branch).  Characters past the end of
the path read as NUL, exactly as in the C string. -/
def vpathMatches (rule : String) (t : String) : Bool :=
  let tl := t.data
  let n := rule.length
  (tl.take n == rule.data) &&
  (tl.getD n (Char.ofNat 0) == '/') &&
  (!((tl.getD (n + 1) (Char.ofNat 0) == '.') &&
     (tl.getD (n + 2) (Char.ofNat 0) == '.') &&
     (tl.getD (n + 3) (Char.ofNat 0) == '/')))

/-- The scan loop of apply_vpath: `for (unsigned i = len; i--;)` visits the
rules from the highest index down and stops at the first match, advancing
the path past the rule and the separator. -/
def vpathLoop (rules : List String) (t : String) : Nat → String
  | 0 => t
  | i + 1 =>
      let r := rules.getD i ""
      if vpathMatches r t then ⟨t.data.drop (r.length + 1)⟩
      else vpathLoop rules t i

/-- apply_vpath: strip the first matching vpath prefix (scanning the rules
from the most recently registered down), then remove leading `./` segments. -/
def apply_vpath (rules : List String) (t : String) : String :=
  ⟨stripDotSlash (vpathLoop rules t rules.length).data⟩

/-- Restatement of the claim's words, to compare with apply_vpath: scan the
rules in reverse registration order, strip the first rule that matches, then
strip leading `./` segments. -/
def specVpathRewrite (rules : List String) (t : String) : String :=
  let stripped :=
    match rules.reverse.find? (fun r => vpathMatches r t) with
    | some r => String.mk (t.data.drop (r.length + 1))
    | none => t
  ⟨stripDotSlash stripped.data⟩

/-- The mkdeps ledger: targets, dependency paths, vpath rules and the
quote low-water mark.  A vpath element velt stores `(str, len)` with
`len = strlen (str)`, so a plain string list is an exact model.  The module
fields are auxiliary to the Make writer and unused by the BOM subsystem. -/
structure mkdeps where
  targets : List String
  deps : List String
  vpath : List String
  quote_lwm : Nat

/-- deps_init: the empty ledger. -/
def deps_init : mkdeps := ⟨[], [], [], 0⟩

/-- deps_add_dep: rewrite the path through the vpath table and append it.
The C asserts `*t` (nonempty path); that precondition is carried as a
hypothesis by the theorems below. -/
def deps_add_dep (d : mkdeps) (t : String) : mkdeps :=
  { d with deps := d.deps ++ [apply_vpath d.vpath t] }

/-- deps_add_target: rewrite the name through the vpath table; a quoted
target is appended; an unquoted one is swapped with the lowest quoted entry
(when one exists) and the low-water mark advances. -/
def deps_add_target (d : mkdeps) (t : String) (quote : Bool) : mkdeps :=
  let t1 := apply_vpath d.vpath t
  if quote then { d with targets := d.targets ++ [t1] }
  else
    if d.quote_lwm = d.targets.length then
      { d with targets := d.targets ++ [t1], quote_lwm := d.quote_lwm + 1 }
    else
      { d with
          targets := (d.targets.set d.quote_lwm t1) ++ [d.targets.getD d.quote_lwm ""],
          quote_lwm := d.quote_lwm + 1 }

/-- Wrap-around `size_t` subtraction (64-bit two's complement), used where the C
computes `length - 2 - start` on size_t. -/
def sizeSub (a b : Nat) : Nat :=
  if b ≤ a then a - b else 18446744073709551616 - (b - a)

/-- Index just past the last `/` of a string (`find_last_of ('/') + 1`,
where npos + 1 wraps to 0). -/
def lastSlashStart (s : String) : Nat :=
  s.length - (s.data.reverse.takeWhile (fun c => !(c == '/'))).length

/-- The stem taken from the first dependency in create_omnibor_metadata_file:
`infile.substr (start, infile.length () - 2 - start)` with size_t
arithmetic — the basename with its final two characters removed (the code
assumes a one-character extension), or the whole basename when the size_t
count wraps and `substr` clamps it. -/
def omniborInfileStem (infile : String) : String :=
  let start := lastSlashStart infile
  ⟨(infile.data.drop start).take (sizeSub (sizeSub infile.length 2) start)⟩

/-- One parsing step of omnibor_get_outfile_name: the space-separated
token list of COLLECT_GCC_OPTIONS is scanned; `'-o'` captures the next
token with its surrounding quotes removed and the scan restarts after it;
`'-E'`, `'-S'`, `'-c'` set the mode marker (3, 2, 1). -/
def omniborParseOptsFuel : Nat → List Char → String → Nat → String × Nat
  | 0, _, path, mode => (path, mode)
  | fuel + 1, opts, path, mode =>
      let tok := opts.takeWhile (fun c => !(c == ' '))
      match opts.dropWhile (fun c => !(c == ' ')) with
      | [] => (path, mode)
      | _ :: restAfter =>
          if tok == "'-o'".data then
            let tok2 := restAfter.takeWhile (fun c => !(c == ' '))
            match restAfter.dropWhile (fun c => !(c == ' ')) with
            | [] =>
                (⟨(restAfter.drop 1).take (sizeSub restAfter.length 2)⟩, mode)
            | _ :: restAfter2 =>
                omniborParseOptsFuel fuel restAfter2
                  ⟨(tok2.drop 1).take (sizeSub tok2.length 2)⟩ mode
          else
            let mode1 :=
              if tok == "'-E'".data then 3
              else if tok == "'-S'".data then 2
              else if tok == "'-c'".data then 1
              else mode
            omniborParseOptsFuel fuel restAfter path mode1

/-- The scan of omnibor_get_outfile_name, with the option-string length as
ample fuel (every iteration consumes at least one character). -/
def omniborParseOpts (opts : List Char) (path : String) (mode : Nat) :
    String × Nat :=
  omniborParseOptsFuel opts.length opts path mode

/-- omnibor_get_outfile_name: scan COLLECT_GCC_OPTIONS, returning the
explicit `-o` output path (empty when none) and `is_E_or_S_or_c`
(3 for -E, 2 for -S, 1 for -c, 0 when linking). -/
def omnibor_get_outfile_name (gcc_opts : String) : String × Nat :=
  omniborParseOpts gcc_opts.data "" 0

/-- The output-name resolution of create_omnibor_metadata_file: with no
explicit `-o` name, a nonempty dependency list derives the name from the
first dependency (mode 1 appends `.o`, mode 2 appends `.s`, mode 0 is the
link default `a.out`, and preprocess-only mode yields the sentinel
`not_available`); otherwise the explicit name is used. -/
def omniborDeriveOutfile (optsOut : String) (mode : Nat) (deps : List String) :
    String :=
  if optsOut = "" then
    if deps.length > 0 then
      if mode = 0 then "a.out"
      else if mode = 1 then omniborInfileStem (deps.getD 0 "") ++ ".o"
      else if mode = 2 then omniborInfileStem (deps.getD 0 "") ++ ".s"
      else "not_available"
    else "not_available"
  else optsOut

/-- One record of the persisted ledger snapshot.  The on-disk form is a raw
`size_t` or a run of raw bytes; the model keeps them as typed records of
the same shape (`count`, then per dependency `length` followed by the path
bytes). -/
inductive SaveTok where
  | num : Nat → SaveTok
  | str : String → SaveTok
deriving DecidableEq

/-- deps_save: the dependency count, then for each dependency its length
and its bytes. -/
def deps_save (d : mkdeps) : List SaveTok :=
  SaveTok.num d.deps.length ::
    (d.deps.map (fun p => [SaveTok.num p.length, SaveTok.str p])).flatten

/-- The read-back loop of deps_restore: read `length` then the path bytes;
a short or malformed read returns -1.  A path is appended through
deps_add_dep only when a self name is present and the path differs from it
(`self != NULL && filename_cmp (buf, self) != 0`). -/
def deps_restore_loop (d : mkdeps) (self : Option String) :
    Nat → List SaveTok → Int × mkdeps
  | 0, _ => (0, d)
  | i + 1, SaveTok.num sz :: SaveTok.str s :: rest =>
      if s.length = sz then
        let d1 :=
          match self with
          | some sf => if s = sf then d else deps_add_dep d s
          | none => d
        deps_restore_loop d1 self i rest
      else (-1, d)
  | _ + 1, _ => (-1, d)

/-- deps_restore: read the dependency count (`unsigned i = size` truncates
it to 32 bits) and run the record loop. -/
def deps_restore (d : mkdeps) (stream : List SaveTok) (self : Option String) :
    Int × mkdeps :=
  match stream with
  | SaveTok.num count :: rest => deps_restore_loop d self (count % 4294967296) rest
  | _ => (-1, d)

/-- Filesystem oracle for the object store.  `dirOk p` tells whether the
open-or-create pattern (`opendir`; on failure `mkdir`/`mkdirat` then
`opendir` again) ends with an open handle for directory path `p`;
`fileOk p` tells whether `fopen (p, "w")` succeeds.  Handles are
identified by the path they were opened at. -/
structure FS where
  dirOk : String → Bool
  fileOk : String → Bool

/-- The open-or-create pattern applied to a possibly empty path.  POSIX
makes `opendir ("")` and `mkdir ("")` fail with ENOENT, so an empty path
never yields a handle. -/
def openOrCreate (fs : FS) (p : String) : Bool :=
  if p = "" then false else fs.dirOk p

/-- Result of open_all_directories_in_path: the returned DIR handle (none
for the NULL return), the handle vector `dirs` in push order (a `none`
entry is the NULL push of the final segment), and the handles actually
opened, in order. -/
structure OpenAllResult where
  ret : Option String
  dirs : List (Option String)
  opened : List String

/-- The tail of open_all_directories_in_path after the loop: a remaining
final segment is opened (or created) under the accumulated path, and its
handle — even a NULL one — is pushed; with no remainder the handle of the
last component is returned. -/
def openAllFinal (fs : FS) (path cur : String) (res : List Char)
    (dirs : List (Option String)) (opened : List String) : OpenAllResult :=
  if res.length > 0 then
    let npath := path ++ "/" ++ String.mk res
    if fs.dirOk npath then
      ⟨some npath, dirs ++ [some npath], opened ++ [npath]⟩
    else
      ⟨none, dirs ++ [none], opened⟩
  else ⟨some cur, dirs, opened⟩

/-- The component loop of open_all_directories_in_path: repeatedly collapse
adjacent separators, open (or create) the next component, push its handle,
and stop with NULL as soon as a component cannot be opened. -/
def openAllLoopFuel (fs : FS) : Nat → String → String → List Char →
    List (Option String) → List String → OpenAllResult
  | 0, path, cur, res, dirs, opened => openAllFinal fs path cur res dirs opened
  | fuel + 1, path, cur, res, dirs, opened =>
      if (res.dropWhile (fun c => !(c == '/'))).isEmpty then
        openAllFinal fs path cur res dirs opened
      else
        let res1 := res.dropWhile (· == '/')
        if (res1.dropWhile (fun c => !(c == '/'))).isEmpty then
          openAllFinal fs path cur res1 dirs opened
        else
          let seg := res1.takeWhile (fun c => !(c == '/'))
          let npath := path ++ "/" ++ String.mk seg
          if fs.dirOk npath then
            openAllLoopFuel fs fuel npath npath
              ((res1.dropWhile (fun c => !(c == '/'))).drop 1)
              (dirs ++ [some npath]) (opened ++ [npath])
          else ⟨none, dirs, opened⟩

/-- The component loop, with the remaining-path length as ample fuel (every
iteration consumes at least one character).  With zero fuel the remainder is
empty and the loop falls through to the final-segment handling. -/
def openAllLoop (fs : FS) (path cur : String) (res : List Char)
    (dirs : List (Option String)) (opened : List String) : OpenAllResult :=
  openAllLoopFuel fs res.length path cur res dirs opened

/-- The head of open_all_directories_in_path after root handling: open the
first component (relative paths start from the empty accumulated path,
absolute ones from "/"), push it, and enter the loop. -/
def openAllHead (fs : FS) (path0 : String) (res : List Char)
    (dirs : List (Option String)) (opened : List String) : OpenAllResult :=
  let seg := res.takeWhile (fun c => !(c == '/'))
  let rest := res.dropWhile (fun c => !(c == '/'))
  let path := path0 ++ String.mk seg
  if fs.dirOk path then
    openAllLoop fs path path (rest.drop 1) (dirs ++ [some path]) (opened ++ [path])
  else ⟨none, dirs, opened⟩

/-- open_all_directories_in_path.  A path without any separator returns
NULL at once.  An absolute path first opens the root directory "/" (always
possible on POSIX), then requires a further separator after collapsing
adjacent ones — "/dir" without more components is rejected. -/
def open_all_directories_in_path (fs : FS) (result_dir : String) :
    OpenAllResult :=
  let res := result_dir.data
  if (res.dropWhile (fun c => !(c == '/'))).isEmpty then ⟨none, [], []⟩
  else if (res.takeWhile (fun c => !(c == '/'))).isEmpty then
    let res1 := res.drop 1
    if (res1.dropWhile (fun c => !(c == '/'))).isEmpty then
      ⟨none, [some "/"], ["/"]⟩
    else
      let res2 := res1.dropWhile (· == '/')
      if (res2.dropWhile (fun c => !(c == '/'))).isEmpty then
        ⟨none, [some "/"], ["/"]⟩
      else openAllHead fs "/" res2 [some "/"] ["/"]
  else openAllHead fs "" res [] []

/-- Shard namespace directory name: `gitoid_blob_sha1` for hash_func_type 0,
`gitoid_blob_sha256` for 1. -/
def shardNamespace : HashAlg → String
  | HashAlg.sha1 => "gitoid_blob_sha1"
  | HashAlg.sha256 => "gitoid_blob_sha256"

/-- Model of `name.substr (0, n)` on an ASCII std::string. -/
def strTake (s : String) (n : Nat) : String := ⟨s.data.take n⟩

/-- Model of `name.substr (n, npos)` on an ASCII std::string. -/
def strDrop (s : String) (n : Nat) : String := ⟨s.data.drop n⟩

/-- close_all_directories_in_path: closedir on every stored handle (a NULL
entry closes nothing). -/
def close_all_directories_in_path (dirs : List (Option String)) : List String :=
  dirs.filterMap id

/-- Trace of one create_omnibor_metadata_file call: success flag, opened
directory handles, closed directory handles, and the metadata file path
written (its text embeds realpath results, which have no filesystem-free
model, so only the path is recorded). -/
structure MetaResult where
  ok : Bool
  opened : List String
  closed : List String
  written : Option String

/-- create_omnibor_metadata_file: create/open `metadata`, `gnu` and the
shard directory under the root, resolve the output name from
COLLECT_GCC_OPTIONS and the dependency list, and write
`<output-basename>.metadata` into the shard directory.  Every failure path
closes the handles opened so far, in reverse order. -/
def create_omnibor_metadata_file (fs : FS) (res_dir : String)
    (alg : HashAlg) (gcc_opts : String) (deps : List String) : MetaResult :=
  let path_metadata := res_dir ++ "/metadata"
  if fs.dirOk path_metadata then
    let path_gnu := path_metadata ++ "/gnu"
    if fs.dirOk path_gnu then
      let path_sha := path_gnu ++ "/" ++ shardNamespace alg
      if fs.dirOk path_sha then
        let pm := omnibor_get_outfile_name gcc_opts
        let outfile_name := omniborDeriveOutfile pm.1 pm.2 deps
        let outfile_name_strip := strDrop outfile_name (lastSlashStart outfile_name)
        let full_filename := path_sha ++ "/" ++ outfile_name_strip ++ ".metadata"
        if fs.fileOk full_filename then
          ⟨true, [path_metadata, path_gnu, path_sha],
           [path_sha, path_gnu, path_metadata], some full_filename⟩
        else
          ⟨false, [path_metadata, path_gnu, path_sha],
           [path_sha, path_gnu, path_metadata], none⟩
      else ⟨false, [path_metadata, path_gnu], [path_gnu, path_metadata], none⟩
    else ⟨false, [path_metadata], [path_metadata], none⟩
  else ⟨false, [], [], none⟩

/-- Trace of one create_omnibor_document_file call: the returned string
(the document gitoid, or "" on failure), opened and closed directory
handles in order, the document file write (path and bytes), and the
metadata file write (path). -/
structure CreateResult where
  ret : String
  opened : List String
  closed : List String
  docWrite : Option (String × String)
  metaWrite : Option String

/-- The tail of create_omnibor_document_file once a root handle is
available: create/open `objects`, the shard namespace directory and the
two-hex-digit shard directory, write the document file, then create the
metadata file and close every handle (the metadata call closes its own).
`opened0` are the handles opened during root resolution, `dirs` is the
handle vector filled by open_all_directories_in_path, and `one` is the
directly opened root handle (dir_one), closed last when present. -/
def createFromRoot (fs : FS) (contents name : String) (alg : HashAlg)
    (result_dir : String) (opened0 : List String) (dirs : List (Option String))
    (one : Option String) (gcc_opts : String) (deps : List String) :
    CreateResult :=
  let path_objects := result_dir ++ "/objects"
  if fs.dirOk path_objects then
    let path_sha := path_objects ++ "/" ++ shardNamespace alg
    if fs.dirOk path_sha then
      let path_dir := path_sha ++ "/" ++ strTake name 2
      if fs.dirOk path_dir then
        let new_file_path := path_dir ++ "/" ++ strDrop name 2
        let docW := if fs.fileOk new_file_path then some (new_file_path, contents) else none
        let name1 := if fs.fileOk new_file_path then name else ""
        let m := create_omnibor_metadata_file fs result_dir alg gcc_opts deps
        let name2 := if m.ok then name1 else ""
        ⟨name2,
         opened0 ++ [path_objects, path_sha, path_dir] ++ m.opened,
         m.closed ++ [path_dir, path_sha, path_objects]
           ++ close_all_directories_in_path dirs ++ one.toList,
         docW, m.written⟩
      else
        ⟨"", opened0 ++ [path_objects, path_sha],
         [path_sha, path_objects] ++ close_all_directories_in_path dirs ++ one.toList,
         none, none⟩
    else
      ⟨"", opened0 ++ [path_objects],
       [path_objects] ++ close_all_directories_in_path dirs ++ one.toList,
       none, none⟩
  else
    ⟨"", opened0, close_all_directories_in_path dirs ++ one.toList, none, none⟩

/-- create_omnibor_document_file: append one `blob <gitoid>` line per
(sorted) record to the header, hash the resulting text to obtain the
document's own gitoid `name`, resolve the root directory (directly, or
component-by-component through open_all_directories_in_path), create the
`objects/<shard>/<name[0:2]>` tree, write the document text to
`<name[2:]>`, record metadata, and return `name` — or "" on any failure,
after closing every opened handle. -/
def create_omnibor_document_file (fs : FS) (header : String)
    (records : List omnibor_dep) (alg : HashAlg) (result_dir : String)
    (gcc_opts : String) (deps : List String) : CreateResult :=
  let contents := header ++ blobLines records
  let name := gitoidOfString alg contents
  if openOrCreate fs result_dir then
    createFromRoot fs contents name alg result_dir [result_dir] [] (some result_dir)
      gcc_opts deps
  else if result_dir.length ≠ 0 then
    let oa := open_all_directories_in_path fs result_dir
    match oa.ret with
    | some _ =>
        createFromRoot fs contents name alg result_dir oa.opened oa.dirs none
          gcc_opts deps
    | none => ⟨"", oa.opened, close_all_directories_in_path oa.dirs, none, none⟩
  else ⟨"", [], [], none, none⟩

/-- make_write_sha1_omnibor / make_write_sha256_omnibor: hash every
readable dependency, sort the records by gitoid, and hand the header and
records to create_omnibor_document_file. -/
def make_write_omnibor (fs : FS) (alg : HashAlg) (env : FileEnv)
    (result_dir : String) (gcc_opts : String) (deps : List String) :
    CreateResult :=
  create_omnibor_document_file fs (omniborHeader alg)
    (sortedOmniborRecords alg env deps) alg result_dir gcc_opts deps

/-- Filesystem oracle where every directory and file operation succeeds
(used to witness the success paths). -/
def fsAllOk : FS := ⟨fun _ => true, fun _ => true⟩

/-- Concrete dependency environment: file "a" holds byte 97, file "b"
holds byte 98, everything else is unreadable. -/
def envWitness : FileEnv := fun p =>
  if p = "a" then some [97] else if p = "b" then some [98] else none

/-- Environment in which no file can be opened. -/
def envNone : FileEnv := fun _ => none

/-- A one-dependency ledger, used to exercise deps_save/deps_restore. -/
def ledgerSaved : mkdeps := deps_add_dep deps_init "a"

theorem charCmp_eq_iff : ∀ (a b : List Char), charCmp a b = Ordering.eq ↔ a = b := by
  intro a
  induction a with
  | nil =>
      intro b
      cases b <;> simp [charCmp]
  | cons x as ih =>
      intro b
      cases b with
      | nil => simp [charCmp]
      | cons y bs =>
          by_cases h1 : x.toNat < y.toNat
          · simp only [charCmp, if_pos h1]
            constructor
            · intro h; exact absurd h (by decide)
            · intro h
              obtain ⟨hx, hbs⟩ := List.cons.inj h
              subst hx
              omega
          · by_cases h2 : y.toNat < x.toNat
            · simp only [charCmp, if_neg h1, if_pos h2]
              constructor
              · intro h; exact absurd h (by decide)
              · intro h
                obtain ⟨hx, hbs⟩ := List.cons.inj h
                subst hx
                omega
            · have hn : x.toNat = y.toNat := by omega
              have hxy : x = y := Char.ext (UInt32.ext hn)
              subst hxy
              simp only [charCmp, if_neg h1, if_neg h2]
              rw [ih bs]
              simp

theorem charCmp_lt_iff_gt : ∀ (a b : List Char),
    charCmp a b = Ordering.lt ↔ charCmp b a = Ordering.gt := by
  intro a
  induction a with
  | nil =>
      intro b
      cases b <;> simp [charCmp]
  | cons x as ih =>
      intro b
      cases b with
      | nil => simp [charCmp]
      | cons y bs =>
          by_cases h1 : x.toNat < y.toNat
          · have h2 : ¬ y.toNat < x.toNat := by omega
            simp [charCmp, h1, h2]
          · by_cases h2 : y.toNat < x.toNat
            · simp [charCmp, h1, h2]
            · simp only [charCmp, if_neg h1, if_neg h2]
              exact ih bs

theorem charCmp_lt_trans : ∀ (a b c : List Char), charCmp a b = Ordering.lt →
    charCmp b c = Ordering.lt → charCmp a c = Ordering.lt := by
  intro a
  induction a with
  | nil =>
      intro b c hab hbc
      cases b with
      | nil => simp [charCmp] at hab
      | cons y bs =>
          cases c with
          | nil => simp [charCmp] at hbc
          | cons z cs => simp [charCmp]
  | cons x as ih =>
      intro b c hab hbc
      cases b with
      | nil => simp [charCmp] at hab
      | cons y bs =>
          cases c with
          | nil => simp [charCmp] at hbc
          | cons z cs =>
              simp only [charCmp] at hab hbc ⊢
              by_cases h1 : x.toNat < y.toNat
              · by_cases h2 : y.toNat < z.toNat
                · have : x.toNat < z.toNat := by omega
                  simp [this]
                · by_cases h3 : z.toNat < y.toNat
                  · simp [h2, h3] at hbc
                  · have hyz : y.toNat = z.toNat := by omega
                    have : x.toNat < z.toNat := by omega
                    simp [this]
              · by_cases h4 : y.toNat < x.toNat
                · simp [h1, h4] at hab
                · have hxy : x.toNat = y.toNat := by omega
                  by_cases h2 : y.toNat < z.toNat
                  · have : x.toNat < z.toNat := by omega
                    simp [this]
                  · by_cases h3 : z.toNat < y.toNat
                    · simp [h2, h3] at hbc
                    · have h5 : ¬ x.toNat < z.toNat := by omega
                      have h6 : ¬ z.toNat < x.toNat := by omega
                      simp only [if_neg h1, if_neg h4] at hab
                      simp only [if_neg h2, if_neg h3] at hbc
                      simp only [if_neg h5, if_neg h6]
                      exact ih bs cs hab hbc


theorem gitoidLe_iff (g1 g2 : String) :
    gitoidLe g1 g2 ↔ charCmp g2.data g1.data ≠ Ordering.lt := by
  unfold gitoidLe strLtB
  cases charCmp g2.data g1.data <;> decide

theorem gitoidLe_total (g1 g2 : String) : gitoidLe g1 g2 ∨ gitoidLe g2 g1 := by
  rw [gitoidLe_iff, gitoidLe_iff]
  rcases ho : charCmp g2.data g1.data with _ | _ | _
  · right
    have hgt : charCmp g1.data g2.data = Ordering.gt :=
      (charCmp_lt_iff_gt g2.data g1.data).mp ho
    simp [hgt]
  · simp
  · simp

theorem gitoidLe_trans (g1 g2 g3 : String) (h12 : gitoidLe g1 g2)
    (h23 : gitoidLe g2 g3) : gitoidLe g1 g3 := by
  rw [gitoidLe_iff] at h12 h23 ⊢
  intro ho
  rcases h2 : charCmp g2.data g1.data with _ | _ | _
  · exact h12 h2
  · have he : g2.data = g1.data := (charCmp_eq_iff _ _).mp h2
    apply h23
    rw [he]
    exact ho
  · have hlt : charCmp g1.data g2.data = Ordering.lt :=
      (charCmp_lt_iff_gt g1.data g2.data).mpr h2
    exact h23 (charCmp_lt_trans g3.data g1.data g2.data ho hlt)

theorem gitoidLe_antisymm (g1 g2 : String) (h12 : gitoidLe g1 g2)
    (h21 : gitoidLe g2 g1) : g1 = g2 := by
  rw [gitoidLe_iff] at h12 h21
  rcases ho : charCmp g1.data g2.data with _ | _ | _
  · exact absurd ho h21
  · exact String.ext ((charCmp_eq_iff _ _).mp ho)
  · exact absurd ((charCmp_lt_iff_gt g2.data g1.data).mpr ho) h12

theorem omniborLe_iff (a b : omnibor_dep) : omniborLe a b ↔ gitoidLe a.gitoid b.gitoid := by
  unfold omniborLe omnibor_cmp gitoidLe
  exact Iff.rfl

theorem omniborLe_total : ∀ a b : omnibor_dep, omniborLe a b ∨ omniborLe b a := by
  intro a b
  rw [omniborLe_iff, omniborLe_iff]
  exact gitoidLe_total a.gitoid b.gitoid

theorem omniborLe_trans : ∀ a b c : omnibor_dep,
    omniborLe a b → omniborLe b c → omniborLe a c := by
  intro a b c h1 h2
  rw [omniborLe_iff] at *
  exact gitoidLe_trans a.gitoid b.gitoid c.gitoid h1 h2

theorem strMk_length (l : List Char) : (String.mk l).length = l.length := rfl

theorem bytesHexChars_length (bs : Bytes) :
    (bytesHexChars bs).length = 2 * bs.length := by
  induction bs with
  | nil => simp [bytesHexChars]
  | cons b bs ih =>
      simp only [bytesHexChars, byteHexChars, List.length_append, List.length_cons, ih,
        List.length_nil]
      omega

theorem sha1Bytes_length (msg : Bytes) : (sha1Bytes msg).length = 20 := by
  simp [sha1Bytes, wordBytesBE]

theorem sha256Bytes_length (msg : Bytes) : (sha256Bytes msg).length = 32 := by
  simp [sha256Bytes, wordBytesBE]

theorem gitoid_hex_length (alg : HashAlg) (c : Bytes) :
    (gitoidOfContents alg c).length = hexLength alg := by
  cases alg <;>
    simp [gitoidOfContents, bytesToHex, hexLength, strMk_length, bytesHexChars_length,
      calculateOmniborWithContents, hashBytes, sha1Bytes_length, sha256Bytes_length]

theorem strBytes_append (s t : String) :
    strBytes (s ++ t) = strBytes s ++ strBytes t := by
  simp [strBytes, String.data_append]

/-- C1: for every byte sequence and both algorithms, the gitoid is the
lowercase hex digest of the algorithm applied to
`"blob " ++ decimal (length) ++ NUL ++ content`, and the hex string has
length 40 (SHA-1) or 64 (SHA-256). -/
theorem gitoid_is_git_blob_hash (alg : HashAlg) (c : Bytes) :
    gitoidOfContents alg c =
      bytesToHex (hashBytes alg
        (strBytes "blob " ++ strBytes (toString c.length) ++ [0] ++ c)) ∧
    (gitoidOfContents alg c).length = hexLength alg := by
  constructor
  · unfold gitoidOfContents calculateOmniborWithContents omniborInitData
    rw [strBytes_append]
  · exact gitoid_hex_length alg c

set_option maxRecDepth 100000 in
theorem gitoid_sha1_empty_vector :
    gitoidOfContents HashAlg.sha1 [] = "e69de29bb2d1d6434b8b29ae775ad8c2e48c5391" := by
  decide

set_option maxRecDepth 100000 in
theorem gitoid_sha256_empty_vector :
    gitoidOfContents HashAlg.sha256 [] =
      "473a0f4c3be8a93681a267e3b1e9a7dcda1185436fe141f7749120a303721813" := by
  decide

theorem blobLines_congr : ∀ (r1 r2 : List omnibor_dep),
    r1.map omnibor_dep.gitoid = r2.map omnibor_dep.gitoid →
    blobLines r1 = blobLines r2 := by
  intro r1
  induction r1 with
  | nil =>
      intro r2 h
      cases r2 with
      | nil => rfl
      | cons e es => simp at h
  | cons d ds ih =>
      intro r2 h
      cases r2 with
      | nil => simp at h
      | cons e es =>
          simp only [List.map_cons, List.cons.injEq] at h
          simp [blobLines, h.1, ih es h.2]

theorem sorted_map_gitoid (r : List omnibor_dep) :
    List.Sorted gitoidLe ((sortOmniborDeps r).map omnibor_dep.gitoid) := by
  haveI : IsTotal omnibor_dep omniborLe := ⟨omniborLe_total⟩
  haveI : IsTrans omnibor_dep omniborLe := ⟨omniborLe_trans⟩
  have hs : List.Sorted omniborLe (sortOmniborDeps r) :=
    List.sorted_insertionSort omniborLe r
  exact List.Pairwise.map _ (fun a b hab => (omniborLe_iff a b).mp hab) hs

theorem sortOmniborDeps_map_eq (r1 r2 : List omnibor_dep) (h : List.Perm r1 r2) :
    (sortOmniborDeps r1).map omnibor_dep.gitoid =
      (sortOmniborDeps r2).map omnibor_dep.gitoid := by
  haveI : IsAntisymm String gitoidLe := ⟨gitoidLe_antisymm⟩
  have p1 : List.Perm (sortOmniborDeps r1) r1 := List.perm_insertionSort omniborLe r1
  have p2 : List.Perm (sortOmniborDeps r2) r2 := List.perm_insertionSort omniborLe r2
  have hp : List.Perm ((sortOmniborDeps r1).map omnibor_dep.gitoid)
      ((sortOmniborDeps r2).map omnibor_dep.gitoid) :=
    ((p1.trans h).trans p2.symm).map _
  exact List.eq_of_perm_of_sorted hp (sorted_map_gitoid r1) (sorted_map_gitoid r2)

/-- C2: for a fixed environment of dependency file contents and a fixed
algorithm, two permutations of the dependency list produce byte-identical
document text and the same document gitoid, and the blob lines are sorted
ascending by gitoid. -/
theorem bom_document_deterministic (alg : HashAlg) (env : FileEnv)
    (deps1 deps2 : List String) (h : List.Perm deps1 deps2) :
    omniborDocumentText alg env deps1 = omniborDocumentText alg env deps2 ∧
    omniborDocumentGitoid alg env deps1 = omniborDocumentGitoid alg env deps2 ∧
    List.Sorted gitoidLe
      ((sortedOmniborRecords alg env deps1).map omnibor_dep.gitoid) := by
  have hrec : List.Perm (omniborRecords alg env deps1) (omniborRecords alg env deps2) :=
    h.filterMap _
  have hmap := sortOmniborDeps_map_eq _ _ hrec
  have htext : omniborDocumentText alg env deps1 = omniborDocumentText alg env deps2 := by
    unfold omniborDocumentText sortedOmniborRecords
    rw [blobLines_congr _ _ hmap]
  refine ⟨htext, ?_, sorted_map_gitoid _⟩
  unfold omniborDocumentGitoid
  rw [htext]

set_option maxRecDepth 400000 in
theorem bom_document_deterministic_witness :
    List.Perm ["b", "a"] ["a", "b"] ∧
    omniborDocumentText HashAlg.sha1 envWitness ["b", "a"] =
      omniborDocumentText HashAlg.sha1 envWitness ["a", "b"] :=
  ⟨by decide,
   (bom_document_deterministic HashAlg.sha1 envWitness ["b", "a"] ["a", "b"]
      (by decide)).1⟩

theorem omniborRecords_filter (alg : HashAlg) (env : FileEnv) :
    ∀ deps : List String,
      omniborRecords alg env deps =
        omniborRecords alg env (deps.filter (fun p => (env p).isSome)) := by
  intro deps
  induction deps with
  | nil => rfl
  | cons p ps ih =>
      cases h : env p with
      | none =>
          simp only [omniborRecords] at ih ⊢
          simp [List.filterMap_cons, List.filter_cons, h, ih]
      | some c =>
          simp only [omniborRecords] at ih ⊢
          simp [List.filterMap_cons, List.filter_cons, h, ih]

theorem omniborRecords_nil_of_none (alg : HashAlg) (env : FileEnv)
    (deps : List String) (h : ∀ p ∈ deps, env p = none) :
    omniborRecords alg env deps = [] := by
  induction deps with
  | nil => rfl
  | cons p ps ih =>
      have hp : env p = none := h p (by simp)
      simp only [omniborRecords, List.filterMap_cons, hp]
      exact ih (fun q hq => h q (by simp [hq]))

/-- C4: a dependency whose file cannot be opened contributes no record and
no blob line (the build never aborts: the builder is total), and when every
dependency is unreadable — in particular when there are none — the document
is exactly the header line. -/
theorem unreadable_deps_are_skipped (alg : HashAlg) (env : FileEnv)
    (deps : List String) :
    omniborRecords alg env deps =
      omniborRecords alg env (deps.filter (fun p => (env p).isSome)) ∧
    omniborDocumentText alg env deps =
      omniborDocumentText alg env (deps.filter (fun p => (env p).isSome)) ∧
    ((∀ p ∈ deps, env p = none) →
      omniborDocumentText alg env deps = omniborHeader alg) := by
  refine ⟨omniborRecords_filter alg env deps, ?_, ?_⟩
  · unfold omniborDocumentText sortedOmniborRecords
    rw [← omniborRecords_filter alg env deps]
  · intro h
    unfold omniborDocumentText sortedOmniborRecords
    rw [omniborRecords_nil_of_none alg env deps h]
    simp [sortOmniborDeps, List.insertionSort, blobLines, String.append_empty]

theorem unreadable_deps_are_skipped_witness :
    (∀ p ∈ ["x"], envNone p = none) ∧
    omniborDocumentText HashAlg.sha1 envNone ["x"] = omniborHeader HashAlg.sha1 :=
  ⟨by intro p _; rfl,
   (unreadable_deps_are_skipped HashAlg.sha1 envNone ["x"]).2.2 (by intro p _; rfl)⟩

theorem vpathLoop_eq_find (rules : List String) (t : String) :
    ∀ n, n ≤ rules.length →
      vpathLoop rules t n =
        (match (rules.take n).reverse.find? (fun r => vpathMatches r t) with
         | some r => String.mk (t.data.drop (r.length + 1))
         | none => t) := by
  intro n
  induction n with
  | zero =>
      intro _
      simp [vpathLoop]
  | succ m ih =>
      intro h
      have hm : m < rules.length := h
      have htake : (rules.take (m + 1)).reverse =
          rules[m] :: (rules.take m).reverse := by
        rw [List.take_succ, List.getElem?_eq_getElem hm]
        simp
      have hget : rules.getD m "" = rules[m] := by
        simp [List.getD_eq_getElem?_getD, List.getElem?_eq_getElem hm]
      rw [htake]
      by_cases hv : vpathMatches rules[m] t
      · simp only [vpathLoop, hget, hv, if_true]
        simp [List.find?, hv]
      · simp only [vpathLoop, hget, hv, if_false]
        rw [ih (Nat.le_of_lt hm)]
        simp [List.find?, hv]

theorem apply_vpath_eq_spec (rules : List String) (t : String) :
    apply_vpath rules t = specVpathRewrite rules t := by
  unfold apply_vpath specVpathRewrite
  rw [vpathLoop_eq_find rules t rules.length (le_refl _), List.take_length]

/-- C6: deps_add_dep records apply_vpath of the given path; apply_vpath
scans the vpath rules in reverse registration order and strips the first
prefix that is followed by a separator and not immediately followed by
`../`, then strips leading `./` segments; rule "foo/bar" strips
"foo/bar/baz.c" to "baz.c" but leaves "foo/bar/../x.c" alone. -/
theorem deps_add_dep_applies_vpath (d : mkdeps) (t : String) (h : t ≠ "") :
    (deps_add_dep d t).deps = d.deps ++ [apply_vpath d.vpath t] ∧
    apply_vpath d.vpath t = specVpathRewrite d.vpath t ∧
    apply_vpath ["foo/bar"] "foo/bar/baz.c" = "baz.c" ∧
    apply_vpath ["foo/bar"] "foo/bar/../x.c" = "foo/bar/../x.c" :=
  ⟨rfl, apply_vpath_eq_spec _ _, by decide, by decide⟩

theorem deps_add_dep_applies_vpath_witness :
    "a" ≠ "" ∧
    (deps_add_dep deps_init "a").deps =
      deps_init.deps ++ [apply_vpath deps_init.vpath "a"] :=
  ⟨by decide, (deps_add_dep_applies_vpath deps_init "a" (by decide)).1⟩

theorem createFromRoot_docWrite (fs : FS) (contents name : String)
    (alg : HashAlg) (result_dir : String) (opened0 : List String)
    (dirs : List (Option String)) (one : Option String) (gcc_opts : String)
    (deps : List String) (p bytes : String)
    (h : (createFromRoot fs contents name alg result_dir opened0 dirs one
            gcc_opts deps).docWrite = some (p, bytes)) :
    bytes = contents ∧
    p = result_dir ++ "/objects" ++ "/" ++ shardNamespace alg ++ "/"
        ++ strTake name 2 ++ "/" ++ strDrop name 2 := by
  simp only [createFromRoot] at h
  by_cases h1 : fs.dirOk (result_dir ++ "/objects")
  case neg => simp [h1] at h
  by_cases h2 : fs.dirOk (result_dir ++ "/objects" ++ "/" ++ shardNamespace alg)
  case neg => simp [h1, h2] at h
  by_cases h3 : fs.dirOk (result_dir ++ "/objects" ++ "/" ++ shardNamespace alg
      ++ "/" ++ strTake name 2)
  case neg => simp [h1, h2, h3] at h
  by_cases h4 : fs.fileOk (result_dir ++ "/objects" ++ "/" ++ shardNamespace alg
      ++ "/" ++ strTake name 2 ++ "/" ++ strDrop name 2)
  case neg => simp [h1, h2, h3, h4] at h
  simp only [h1, h2, h3, h4, if_true] at h
  rw [Option.some.injEq, Prod.mk.injEq] at h
  exact ⟨h.2.symm, h.1.symm⟩

/-- C3: whenever the document file is persisted, it is written at
`root/objects/<shard namespace>/<gitoid[0:2]>/<gitoid[2:]>` and its bytes
are exactly the document text over which the gitoid was computed. -/
theorem bom_object_store_layout (fs : FS) (header : String)
    (records : List omnibor_dep) (alg : HashAlg)
    (result_dir gcc_opts : String) (deps : List String) (p bytes : String)
    (h : (create_omnibor_document_file fs header records alg result_dir
            gcc_opts deps).docWrite = some (p, bytes)) :
    bytes = header ++ blobLines records ∧
    p = result_dir ++ "/objects" ++ "/" ++ shardNamespace alg ++ "/"
        ++ strTake (gitoidOfString alg bytes) 2 ++ "/"
        ++ strDrop (gitoidOfString alg bytes) 2 := by
  simp only [create_omnibor_document_file] at h
  split at h
  · have hc := createFromRoot_docWrite _ _ _ _ _ _ _ _ _ _ _ _ h
    refine ⟨hc.1, ?_⟩
    rw [hc.2, hc.1]
  · split at h
    · split at h
      · have hc := createFromRoot_docWrite _ _ _ _ _ _ _ _ _ _ _ _ h
        refine ⟨hc.1, ?_⟩
        rw [hc.2, hc.1]
      · simp at h
    · simp at h

set_option maxRecDepth 400000 in
theorem bom_object_store_layout_witness :
    (create_omnibor_document_file fsAllOk "gitoid:blob:sha1\n" [] HashAlg.sha1
        "bom" "" []).docWrite =
      some ("bom/objects/gitoid_blob_sha1/da/a8845467f5d281d4d233a69af67b85dd50f9f0",
            "gitoid:blob:sha1\n") ∧
    "gitoid:blob:sha1\n" = "gitoid:blob:sha1\n" ++ blobLines [] ∧
    "bom/objects/gitoid_blob_sha1/da/a8845467f5d281d4d233a69af67b85dd50f9f0" =
      "bom" ++ "/objects" ++ "/" ++ shardNamespace HashAlg.sha1 ++ "/"
        ++ strTake (gitoidOfString HashAlg.sha1 "gitoid:blob:sha1\n") 2 ++ "/"
        ++ strDrop (gitoidOfString HashAlg.sha1 "gitoid:blob:sha1\n") 2 :=
  ⟨by decide,
   bom_object_store_layout fsAllOk "gitoid:blob:sha1\n" [] HashAlg.sha1 "bom" "" []
     "bom/objects/gitoid_blob_sha1/da/a8845467f5d281d4d233a69af67b85dd50f9f0"
     "gitoid:blob:sha1\n" (by decide)⟩

/-- C8 counterexample: with an all-permissive filesystem oracle, an empty
root string makes create_omnibor_document_file return the failure sentinel
"" and write nothing — it is not treated as the current working directory. -/
theorem empty_root_counterexample :
    (create_omnibor_document_file fsAllOk "gitoid:blob:sha1\n" [] HashAlg.sha1
        "" "" []).ret = "" ∧
    (create_omnibor_document_file fsAllOk "gitoid:blob:sha1\n" [] HashAlg.sha1
        "" "" []).docWrite = none := by
  constructor <;> rfl

/-- C8 amended: an empty root directory path is rejected by the persist
operation: opendir/mkdir on "" fail (POSIX ENOENT), the strlen guard then
returns the empty string, and nothing is opened or written.  The
empty-root ⇒ current-working-directory convention is the caller's
responsibility; both empty-root returns are marked "should not be
reachable" in the code. -/
theorem empty_root_rejected (fs : FS) (header : String)
    (records : List omnibor_dep) (alg : HashAlg) (gcc_opts : String)
    (deps : List String) :
    (create_omnibor_document_file fs header records alg "" gcc_opts deps).ret = "" ∧
    (create_omnibor_document_file fs header records alg "" gcc_opts deps).docWrite
      = none ∧
    (create_omnibor_document_file fs header records alg "" gcc_opts deps).opened
      = [] := by
  refine ⟨?_, ?_, ?_⟩ <;> rfl

/-- C7 counterexample: with no -o option, compile-only mode and first
dependency "baz.cpp", the code strips only the final two characters (it
assumes a one-character extension), producing "baz.c.o" rather than the
claimed extension-stripped "baz.o". -/
theorem outfile_extension_counterexample :
    omniborDeriveOutfile "" 1 ["baz.cpp"] = "baz.c.o" ∧
    omniborDeriveOutfile "" 1 ["baz.cpp"] ≠ "baz.o" := by
  constructor <;> decide

theorem dropLast_two_eq_take (l : List Char) :
    l.dropLast.dropLast = l.take (l.length - 2) := by
  rw [List.dropLast_eq_take, List.dropLast_eq_take]
  simp [List.take_take, List.length_take]
  omega

theorem omniborInfileStem_eq_dropLast (infile : String)
    (h : lastSlashStart infile + 2 ≤ infile.length) :
    omniborInfileStem infile =
      String.mk ((infile.data.drop (lastSlashStart infile)).dropLast.dropLast) := by
  unfold omniborInfileStem
  dsimp only
  rw [dropLast_two_eq_take]
  have h2 : sizeSub infile.length 2 = infile.length - 2 := by
    unfold sizeSub
    rw [if_pos (by omega)]
  have h3 : sizeSub (infile.length - 2) (lastSlashStart infile) =
      infile.length - 2 - lastSlashStart infile := by
    unfold sizeSub
    rw [if_pos (by omega)]
  rw [h2, h3]
  have h4 : (infile.data.drop (lastSlashStart infile)).length =
      infile.length - lastSlashStart infile := by
    simp [List.length_drop]
  rw [h4]
  have h5 : infile.length - 2 - lastSlashStart infile =
      infile.length - lastSlashStart infile - 2 := by omega
  rw [h5]

/-- C7 amended: with no explicit -o name and a nonempty dependency list,
the output name is derived from the first dependency by stripping its
directory and its final two characters (the code assumes a one-character
extension such as ".c"; for longer extensions only two characters are
removed) and appending ".o" (compile-only) or ".s" (assemble-only); link
mode yields "a.out" and preprocess-only mode the sentinel "not_available". -/
theorem outfile_name_derivation (first : String) (rest : List String)
    (mode : Nat) (h : lastSlashStart first + 2 ≤ first.length) :
    omniborDeriveOutfile "" mode (first :: rest) =
      (if mode = 0 then "a.out"
       else if mode = 1 then
         String.mk ((first.data.drop (lastSlashStart first)).dropLast.dropLast) ++ ".o"
       else if mode = 2 then
         String.mk ((first.data.drop (lastSlashStart first)).dropLast.dropLast) ++ ".s"
       else "not_available") := by
  unfold omniborDeriveOutfile
  rw [if_pos rfl, if_pos (by simp)]
  rcases Nat.decEq mode 0 with h0 | h0
  · rcases Nat.decEq mode 1 with h1 | h1
    · rcases Nat.decEq mode 2 with h2 | h2
      · simp [h0, h1, h2]
      · simp [h0, h1, h2, List.getD, omniborInfileStem_eq_dropLast first h]
    · simp [h0, h1, List.getD, omniborInfileStem_eq_dropLast first h]
  · simp [h0]

theorem outfile_name_derivation_witness :
    lastSlashStart "dir/baz.c" + 2 ≤ "dir/baz.c".length ∧
    omniborDeriveOutfile "" 1 ["dir/baz.c"] =
      (if 1 = 0 then "a.out"
       else if 1 = 1 then
         String.mk ((("dir/baz.c" : String).data.drop
           (lastSlashStart "dir/baz.c")).dropLast.dropLast) ++ ".o"
       else if 1 = 2 then
         String.mk ((("dir/baz.c" : String).data.drop
           (lastSlashStart "dir/baz.c")).dropLast.dropLast) ++ ".s"
       else "not_available") :=
  ⟨by decide, outfile_name_derivation "dir/baz.c" [] 1 (by decide)⟩

/-- C9 counterexample: restoring a snapshot holding dependency "a" with a
NULL self name appends nothing (the code reads and discards the records
when self is NULL), while the claim says every recorded path is appended. -/
theorem restore_null_self_counterexample :
    ledgerSaved.deps = ["a"] ∧
    (deps_restore deps_init (deps_save ledgerSaved) none).1 = 0 ∧
    (deps_restore deps_init (deps_save ledgerSaved) none).2.deps = [] ∧
    (deps_restore deps_init (deps_save ledgerSaved) none).2.deps ≠
      ledgerSaved.deps := by
  refine ⟨by decide, by decide, by decide, by decide⟩

theorem deps_restore_loop_roundtrip (self : String) :
    ∀ (ds : List String) (d2 : mkdeps),
      deps_restore_loop d2 (some self) ds.length
        ((ds.map (fun p => [SaveTok.num p.length, SaveTok.str p])).flatten) =
      (0, { d2 with deps := d2.deps ++ ((ds.filter (fun p => p ≠ self)).map
            (fun p => apply_vpath d2.vpath p)) }) := by
  intro ds
  induction ds with
  | nil => intro d2; simp [deps_restore_loop]
  | cons p ps ih =>
      intro d2
      simp only [List.map_cons, List.flatten_cons, List.length_cons,
        List.cons_append, List.nil_append]
      by_cases hp : p = self
      · subst hp
        rw [deps_restore_loop]
        dsimp only
        rw [if_pos rfl, if_pos rfl, ih d2]
        simp [List.filter_cons]
      · rw [deps_restore_loop]
        dsimp only
        rw [if_pos rfl, if_neg hp, ih (deps_add_dep d2 p)]
        simp [deps_add_dep, List.filter_cons, hp, List.append_assoc]

theorem deps_restore_loop_none :
    ∀ (ds : List String) (d2 : mkdeps),
      deps_restore_loop d2 none ds.length
        ((ds.map (fun p => [SaveTok.num p.length, SaveTok.str p])).flatten) =
      (0, d2) := by
  intro ds
  induction ds with
  | nil => intro d2; simp [deps_restore_loop]
  | cons p ps ih =>
      intro d2
      simp only [List.map_cons, List.flatten_cons, List.length_cons,
        List.cons_append, List.nil_append]
      rw [deps_restore_loop]
      simp only [if_pos rfl]
      exact ih d2

/-- C9 amended: deps_restore reads back the shape written by deps_save and
returns 0; when a self name is given, every recorded path except those
equal to it is appended through deps_add_dep (hence rewritten through the
live ledger's vpath table); when self is NULL the records are read but
discarded; a read failure (e.g. an empty stream) returns -1. -/
theorem deps_snapshot_roundtrip (d1 d2 : mkdeps) (self : String)
    (h : d1.deps.length < 4294967296) :
    deps_restore d2 (deps_save d1) (some self) =
      (0, { d2 with deps := d2.deps ++ ((d1.deps.filter (fun p => p ≠ self)).map
            (fun p => apply_vpath d2.vpath p)) }) ∧
    deps_restore d2 (deps_save d1) none = (0, d2) ∧
    (deps_restore d2 [] (some self)).1 = -1 := by
  refine ⟨?_, ?_, rfl⟩
  · unfold deps_restore deps_save
    dsimp only
    rw [Nat.mod_eq_of_lt h]
    exact deps_restore_loop_roundtrip self d1.deps d2
  · unfold deps_restore deps_save
    dsimp only
    rw [Nat.mod_eq_of_lt h]
    exact deps_restore_loop_none d1.deps d2

theorem deps_snapshot_roundtrip_witness :
    ledgerSaved.deps.length < 4294967296 ∧
    deps_restore deps_init (deps_save ledgerSaved) (some "zz") =
      (0, { deps_init with
              deps := deps_init.deps ++
                ((ledgerSaved.deps.filter (fun p => p ≠ "zz")).map
                  (fun p => apply_vpath deps_init.vpath p)) }) :=
  ⟨by decide, (deps_snapshot_roundtrip ledgerSaved deps_init "zz" (by decide)).1⟩

theorem set_getD_perm (l : List String) (k : Nat) (x : String) (h : k < l.length) :
    List.Perm ((l.set k x) ++ [l.getD k ""]) (l ++ [x]) := by
  have hd : l.getD k "" = l[k] := by
    simp [List.getD_eq_getElem?_getD, List.getElem?_eq_getElem h]
  rw [hd, List.set_eq_take_append_cons_drop, if_pos h]
  conv_rhs => rw [← List.take_append_drop k l, List.drop_eq_getElem_cons h]
  rw [List.append_assoc, List.append_assoc]
  apply List.Perm.append_left
  refine List.Perm.trans (List.Perm.cons x (List.perm_append_singleton _ _)) ?_
  refine List.Perm.trans (List.Perm.swap _ _ _) ?_
  exact List.Perm.cons _ (List.perm_append_singleton _ _).symm

/-- C10: deps_add_target rewrites the target name through the vpath table
before recording it — quoted or unquoted, the stored multiset of targets
gains exactly apply_vpath of the given name (the unquoted case swaps the
new entry with the lowest quoted one, which permutes but never changes the
stored strings). -/
theorem deps_add_target_applies_vpath (d : mkdeps) (t : String) (quote : Bool)
    (h : d.quote_lwm ≤ d.targets.length) :
    List.Perm (deps_add_target d t quote).targets
      (d.targets ++ [apply_vpath d.vpath t]) := by
  unfold deps_add_target
  by_cases hq : quote
  · simp [hq]
  · simp only [hq, if_false, Bool.false_eq_true]
    by_cases he : d.quote_lwm = d.targets.length
    · simp [he]
    · have hlt : d.quote_lwm < d.targets.length := by omega
      simp only [he, if_false]
      exact set_getD_perm d.targets d.quote_lwm (apply_vpath d.vpath t) hlt

theorem deps_add_target_applies_vpath_witness :
    (⟨["q"], [], [], 0⟩ : mkdeps).quote_lwm ≤
      (⟨["q"], [], [], 0⟩ : mkdeps).targets.length ∧
    List.Perm (deps_add_target ⟨["q"], [], [], 0⟩ "n" false).targets
      ((⟨["q"], [], [], 0⟩ : mkdeps).targets ++
        [apply_vpath (⟨["q"], [], [], 0⟩ : mkdeps).vpath "n"]) :=
  ⟨by decide, deps_add_target_applies_vpath ⟨["q"], [], [], 0⟩ "n" false (by decide)⟩

theorem openAllFinal_opened (fs : FS) (path cur : String) (res : List Char)
    (dirs : List (Option String)) (opened : List String)
    (h : opened = dirs.filterMap id) :
    (openAllFinal fs path cur res dirs opened).opened =
      (openAllFinal fs path cur res dirs opened).dirs.filterMap id := by
  unfold openAllFinal
  split
  · dsimp only
    split
    · simp [h, List.filterMap_append]
    · simp [h, List.filterMap_append]
  · exact h

theorem openAllLoopFuel_opened (fs : FS) :
    ∀ (fuel : Nat) (path cur : String) (res : List Char)
      (dirs : List (Option String)) (opened : List String),
      opened = dirs.filterMap id →
      (openAllLoopFuel fs fuel path cur res dirs opened).opened =
        (openAllLoopFuel fs fuel path cur res dirs opened).dirs.filterMap id := by
  intro fuel
  induction fuel with
  | zero =>
      intro path cur res dirs opened h
      exact openAllFinal_opened fs path cur res dirs opened h
  | succ n ih =>
      intro path cur res dirs opened h
      rw [openAllLoopFuel]
      split
      · exact openAllFinal_opened fs path cur res dirs opened h
      · dsimp only
        split
        · exact openAllFinal_opened fs path cur _ dirs opened h
        · split
          · apply ih
            simp [h, List.filterMap_append]
          · exact h

theorem openAllHead_opened (fs : FS) (path0 : String) (res : List Char)
    (dirs : List (Option String)) (opened : List String)
    (h : opened = dirs.filterMap id) :
    (openAllHead fs path0 res dirs opened).opened =
      (openAllHead fs path0 res dirs opened).dirs.filterMap id := by
  unfold openAllHead openAllLoop
  dsimp only
  split
  · apply openAllLoopFuel_opened
    simp [h, List.filterMap_append]
  · exact h

theorem open_all_opened (fs : FS) (result_dir : String) :
    (open_all_directories_in_path fs result_dir).opened =
      (open_all_directories_in_path fs result_dir).dirs.filterMap id := by
  unfold open_all_directories_in_path
  dsimp only
  split
  · rfl
  · split
    · split
      · rfl
      · split
        · rfl
        · exact openAllHead_opened fs "/" _ [some "/"] ["/"] rfl
    · exact openAllHead_opened fs "" _ [] [] rfl

theorem meta_handles_balanced (fs : FS) (res_dir : String) (alg : HashAlg)
    (gcc_opts : String) (deps : List String) :
    List.Perm (create_omnibor_metadata_file fs res_dir alg gcc_opts deps).closed
      (create_omnibor_metadata_file fs res_dir alg gcc_opts deps).opened := by
  unfold create_omnibor_metadata_file
  dsimp only
  split
  · split
    · split
      · split <;>
        · dsimp only
          rw [← Multiset.coe_eq_coe]
          simp only [← Multiset.cons_coe, ← Multiset.singleton_add, Multiset.coe_nil]
          try abel
      · dsimp only
        rw [← Multiset.coe_eq_coe]
        simp only [← Multiset.cons_coe, ← Multiset.singleton_add, Multiset.coe_nil]
        try abel
    · dsimp only
      rw [← Multiset.coe_eq_coe]
      try simp only [← Multiset.cons_coe, ← Multiset.singleton_add, Multiset.coe_nil]
      try abel
  · exact List.Perm.refl _

theorem createFromRoot_balanced (fs : FS) (contents name : String)
    (alg : HashAlg) (result_dir : String) (opened0 : List String)
    (dirs : List (Option String)) (one : Option String) (gcc_opts : String)
    (deps : List String)
    (h : List.Perm (close_all_directories_in_path dirs ++ one.toList) opened0) :
    List.Perm
      (createFromRoot fs contents name alg result_dir opened0 dirs one
        gcc_opts deps).closed
      (createFromRoot fs contents name alg result_dir opened0 dirs one
        gcc_opts deps).opened := by
  unfold createFromRoot
  dsimp only
  split
  · split
    · split
      · have hm := meta_handles_balanced fs result_dir alg gcc_opts deps
        rw [← Multiset.coe_eq_coe] at h hm ⊢
        simp only [← Multiset.coe_add, ← Multiset.cons_coe,
          ← Multiset.singleton_add, Multiset.coe_nil] at h hm ⊢
        rw [hm, ← h]
        abel
      · rw [← Multiset.coe_eq_coe] at h ⊢
        simp only [← Multiset.coe_add, ← Multiset.cons_coe,
          ← Multiset.singleton_add, Multiset.coe_nil] at h ⊢
        rw [← h]
        abel
    · rw [← Multiset.coe_eq_coe] at h ⊢
      simp only [← Multiset.coe_add, ← Multiset.cons_coe,
        ← Multiset.singleton_add, Multiset.coe_nil] at h ⊢
      rw [← h]
      abel
  · exact h

theorem createFromRoot_ret (fs : FS) (contents name : String) (alg : HashAlg)
    (result_dir : String) (opened0 : List String) (dirs : List (Option String))
    (one : Option String) (gcc_opts : String) (deps : List String) :
    (createFromRoot fs contents name alg result_dir opened0 dirs one
        gcc_opts deps).ret = "" ∨
    (createFromRoot fs contents name alg result_dir opened0 dirs one
        gcc_opts deps).ret = name := by
  unfold createFromRoot
  dsimp only
  split
  · split
    · split
      · split
        · split
          · right; rfl
          · left; rfl
        · left; rfl
      · left; rfl
    · left; rfl
  · left; rfl

/-- C5: every invocation of the object-store persist operation closes
exactly the directory handles it opened (as multisets — no leaks, also on
every failure path), and returns either the failure sentinel "" or the
complete document gitoid, whose hex length is 40 or 64 — never a partial
name. -/
theorem object_store_handles_balanced (fs : FS) (header : String)
    (records : List omnibor_dep) (alg : HashAlg) (result_dir gcc_opts : String)
    (deps : List String) :
    List.Perm
      (create_omnibor_document_file fs header records alg result_dir
        gcc_opts deps).closed
      (create_omnibor_document_file fs header records alg result_dir
        gcc_opts deps).opened ∧
    ((create_omnibor_document_file fs header records alg result_dir
        gcc_opts deps).ret = "" ∨
     (create_omnibor_document_file fs header records alg result_dir
        gcc_opts deps).ret = gitoidOfString alg (header ++ blobLines records)) ∧
    ((create_omnibor_document_file fs header records alg result_dir
        gcc_opts deps).ret = "" ∨
     (create_omnibor_document_file fs header records alg result_dir
        gcc_opts deps).ret.length = hexLength alg) := by
  have hlen : (gitoidOfString alg (header ++ blobLines records)).length =
      hexLength alg := gitoid_hex_length alg _
  unfold create_omnibor_document_file
  dsimp only
  split
  · refine ⟨createFromRoot_balanced _ _ _ _ _ _ _ _ _ _ (List.Perm.refl _),
      createFromRoot_ret _ _ _ _ _ _ _ _ _ _, ?_⟩
    rcases createFromRoot_ret fs (header ++ blobLines records)
        (gitoidOfString alg (header ++ blobLines records)) alg result_dir
        [result_dir] [] (some result_dir) gcc_opts deps with hr | hr
    · exact Or.inl hr
    · right
      rw [hr]
      exact hlen
  · split
    · split
      · have hoa : List.Perm
            (close_all_directories_in_path
              (open_all_directories_in_path fs result_dir).dirs ++
              (none : Option String).toList)
            (open_all_directories_in_path fs result_dir).opened := by
          rw [open_all_opened fs result_dir]
          simp [close_all_directories_in_path]
        refine ⟨createFromRoot_balanced _ _ _ _ _ _ _ _ _ _ hoa,
          createFromRoot_ret _ _ _ _ _ _ _ _ _ _, ?_⟩
        rcases createFromRoot_ret fs (header ++ blobLines records)
            (gitoidOfString alg (header ++ blobLines records)) alg result_dir
            (open_all_directories_in_path fs result_dir).opened
            (open_all_directories_in_path fs result_dir).dirs none
            gcc_opts deps with hr | hr
        · exact Or.inl hr
        · right
          rw [hr]
          exact hlen
      · refine ⟨?_, Or.inl rfl, Or.inl rfl⟩
        dsimp only
        rw [open_all_opened fs result_dir]
        exact List.Perm.refl _
    · exact ⟨List.Perm.refl _, Or.inl rfl, Or.inl rfl⟩
